import Mathlib

/-!
Shallow embedding of the filament backend command stream
(src/filament/backend/src/CommandStream.cpp) and, where the repository
only ships the .cpp file, of the declarations it implements
(private/backend/CommandStream.h, CircularBuffer), modelled from the
specification.

The embedding is a trace semantics: enqueue operations build a stream
state (an arena write cursor plus the records placement-constructed in
the arena), and draining the buffer produces a list of events (driver
calls, closure invocations, destructor runs).  Driver behaviour and
closure behaviour are parameters (`Driver`, `ClosureEnv`) so that
independence properties can be stated as quantifications over them.
-/

namespace FilamentBackend

/-- Type-erased snapshot of the argument values of one driver call, as
machine words.  The concrete C++ argument tuples are bit-copied at
enqueue time; we model the snapshot as a list of naturals. -/
abbrev Args := List Nat

/-- Behaviour of a concrete driver instance: for a method selector and
an argument snapshot it yields the outcome of the call (`none` models a
failing or misbehaving call; the command stream never looks at it). -/
abbrev Driver := Nat → Args → Option Nat

/-- Behaviour of the enqueued closures: a closure identifier maps to the
outcome of running it (`none` models a failing closure). -/
abbrev ClosureEnv := Nat → Option Nat

/-- Modelled from the spec: the 8-byte alignment helper
`CommandBase::align` lives in private/backend/CommandStream.h, which is
not under src/.  Per the spec, every record size "must be 8-byte aligned
(or the platform's pointer alignment) so the next record starts
validly"; `align` rounds its argument up to the next multiple of 8. -/
def align (n : Nat) : Nat := ((n + 7) / 8) * 8

/-- Modelled from the spec: `sizeof(CustomCommand)` is a fixed
compile-time constant (the record header plus one stored closure of
fixed footprint); its exact value is immaterial to the claims, which
only use that it is one fixed positive constant per record type. -/
def sizeofCustomCommand : Nat := 40

/-- One type-erased record in the arena: a typed driver command (method
selector plus argument snapshot), a custom command (a stored closure),
or the stop marker the buffer-swap logic appends after the producer's
final write. -/
inductive CommandRecord where
  | typed (method : Nat) (args : Args)
  | custom (closure : Nat)
  | noop
  deriving DecidableEq, Repr

/-- Modelled from the spec: the serialized byte size of a record before
alignment.  For a typed command it is the record header plus the
argument tuple (a compile-time constant per method signature — here a
function of the snapshot's width); for a custom command it is
`sizeof(CustomCommand)`; the stop marker is a bare record header. -/
def CommandRecord.rawSize : CommandRecord → Nat
  | .typed _ args => 16 + 8 * args.length
  | .custom _ => sizeofCustomCommand
  | .noop => 8

/-- Observable events of one producer/consumer generation. -/
inductive Event where
  | constructTyped (method : Nat) (args : Args)
  | constructCustom (closure : Nat)
  | writeNext (rel : Nat)
  | driverCall (method : Nat) (args : Args) (outcome : Option Nat)
  | destructTyped (method : Nat)
  | closureRun (closure : Nat) (outcome : Option Nat)
  | destructCustom (closure : Nat)
  deriving DecidableEq, Repr

/-- True exactly on driver-call events. -/
def Event.isDriverCall : Event → Bool
  | .driverCall _ _ _ => true
  | _ => false

/-- CustomCommand::execute from CommandStream.cpp lines 136-140: first
writes the relative next-record offset `align(sizeof(CustomCommand))`
through the out-parameter, then invokes the stored closure, then runs
the record's destructor.  The driver reference parameter is unnamed in
the source and unused. -/
def CustomCommand.execute (d : Driver) (env : ClosureEnv) (c : Nat) : List Event × Nat :=
  let next := align sizeofCustomCommand
  ([Event.writeNext next, Event.closureRun c (env c), Event.destructCustom c], next)

/-- Modelled from the spec: the typed `Command<METHOD>::execute` template
lives in private/backend/CommandStream.h, which is not under src/.  Per
spec section 4.2 it unpacks the stored arguments and invokes the bound
method on the driver, then explicitly destructs the stored arguments,
then returns the offset immediately following this record (the record's
aligned size, as a relative offset). -/
def Command.execute (d : Driver) (m : Nat) (args : Args) : List Event × Nat :=
  ([Event.driverCall m args (d m args), Event.destructTyped m],
   align (CommandRecord.typed m args).rawSize)

/-- Modelled from the spec: the stop marker record appended by the
buffer-swap logic; executing it performs no call and yields the relative
offset 0, the null/sentinel offset that ends the walk. -/
def NoopCommand.execute : List Event × Nat := ([], 0)

/-- Dispatch of one record's type-erased execute function: the events it
emits and the relative offset of the following record (0 = sentinel). -/
def recordExecute (d : Driver) (env : ClosureEnv) : CommandRecord → List Event × Nat
  | .typed m args => Command.execute d m args
  | .custom c => CustomCommand.execute d env c
  | .noop => NoopCommand.execute

/-- Modelled from the spec: `CommandBase::execute` in
private/backend/CommandStream.h runs the record's type-erased execute
function and turns the relative offset it wrote into the pointer to the
next record — null when the relative offset is the sentinel 0. -/
def CommandBase.execute (d : Driver) (env : ClosureEnv) (off : Nat) (r : CommandRecord) :
    List Event × Option Nat :=
  let er := recordExecute d env r
  (er.1, if er.2 = 0 then none else some (off + er.2))

/-- Arena contents as laid out by consecutive bump allocation: each
record sits at the running offset, which advances by the record's
aligned size. -/
def layout : Nat → List CommandRecord → List (Nat × CommandRecord)
  | _, [] => []
  | off, r :: rs => (off, r) :: layout (off + align r.rawSize) rs

/-- Look up the record placed at a given arena offset. -/
def fetchRecord (recs : List (Nat × CommandRecord)) (off : Nat) : Option CommandRecord :=
  (recs.find? fun p => p.1 == off).map Prod.snd

/-- The consumer's walk over the arena, CommandStream.cpp lines 76-80:
starting from a record pointer (`none` is the null pointer), repeatedly
run the current record and follow the returned pointer until it is null.
The result is `none` when the fuel runs out or an offset holds no record
(a malformed buffer), and otherwise the emitted events together with the
list of offsets visited. -/
def walk (d : Driver) (env : ClosureEnv) (recs : List (Nat × CommandRecord)) :
    Nat → Option Nat → Option (List Event × List Nat)
  | _, none => some ([], [])
  | 0, some _ => none
  | fuel + 1, some off =>
    match fetchRecord recs off with
    | none => none
    | some r =>
      match CommandBase.execute d env off r with
      | (evs, next) =>
        match walk d env recs fuel next with
        | none => none
        | some (restE, restV) => some (evs ++ restE, off :: restV)

/-- CommandStream::execute from CommandStream.cpp lines 65-95, stripped
of its instrumentation: the blocking loop `while (base) base =
base->execute(driver)` over the buffer, with fuel one more than the
number of records in the arena (each iteration consumes one record). -/
def CommandStream.execute (d : Driver) (env : ClosureEnv)
    (recs : List (Nat × CommandRecord)) (buffer : Option Nat) : Option (List Event) :=
  (walk d env recs (recs.length + 1) buffer).map Prod.fst

/-- Instrumentation events of the profiler/systrace scaffolding around
the walk (CommandStream.cpp lines 66-74 and 82-94). -/
inductive InstrEvent where
  | resetEvents
  | profilerStart
  | readCounters
  | traceValues
  deriving DecidableEq, Repr

/-- CommandStream::execute with its instrumentation: when the systrace
tag is enabled the profiler counters are reset and started before the
walk and read and reported after it; the walk itself is the same either
way. -/
def CommandStream.executeTraced (systraceTag : Bool) (d : Driver) (env : ClosureEnv)
    (recs : List (Nat × CommandRecord)) (buffer : Option Nat) :
    Option (List Event) × List InstrEvent :=
  let pre := if systraceTag then [InstrEvent.resetEvents, InstrEvent.profilerStart] else []
  let result := CommandStream.execute d env recs buffer
  let post := if systraceTag then [InstrEvent.readCounters, InstrEvent.traceValues] else []
  (result, pre ++ post)

/-- Producer-side state of one arena generation: the arena capacity, the
write cursor of the circular buffer, and the records constructed so far
(each with the offset it was placed at). -/
structure CommandStream where
  capacity : Nat
  writeOffset : Nat
  records : List (Nat × CommandRecord)
  deriving DecidableEq, Repr

/-- A fresh generation over an empty arena of the given capacity. -/
def CommandStream.fresh (cap : Nat) : CommandStream := ⟨cap, 0, []⟩

/-- Failure raised when an allocation cannot fit. -/
inductive CapacityError where
  | overflow (requested capacity writeOffset : Nat)
  deriving DecidableEq, Repr

/-- Modelled from the spec: `CommandStream::allocateCommand` and the
backing `CircularBuffer` are not under src/.  Per spec sections 3, 4.1
and 7, allocation bump-advances the write cursor and must detect and
fail when a generation's commands exceed the arena capacity, never
returning a pointer into invalid space; the failure is the fatal
capacity error.  One generation is modelled linearly. -/
def allocateCommand (size : Nat) (s : CommandStream) :
    Except CapacityError (Nat × CommandStream) :=
  if s.writeOffset + size ≤ s.capacity then
    .ok (s.writeOffset, { s with writeOffset := s.writeOffset + size })
  else
    .error (.overflow size s.capacity s.writeOffset)

/-- CommandStream::queueCommand from CommandStream.cpp lines 97-99:
allocates `align(sizeof(CustomCommand))` bytes and placement-constructs
a CustomCommand holding the moved closure there.  The closure is stored,
not invoked: the only event is the construction. -/
def CommandStream.queueCommand (c : Nat) (s : CommandStream) :
    Except CapacityError (CommandStream × List Event) :=
  match allocateCommand (align sizeofCustomCommand) s with
  | .error e => .error e
  | .ok (off, s1) =>
    .ok ({ s1 with records := s1.records ++ [(off, CommandRecord.custom c)] },
         [Event.constructCustom c])

/-- Modelled from the spec: the per-method typed enqueue entry points are
generated in private/backend/CommandStream.h, which is not under src/.
Per spec section 4.4 each one copies the call's arguments into a typed
record in the arena and returns immediately. -/
def CommandStream.enqueueTyped (m : Nat) (args : Args) (s : CommandStream) :
    Except CapacityError (CommandStream × List Event) :=
  match allocateCommand (align (CommandRecord.typed m args).rawSize) s with
  | .error e => .error e
  | .ok (off, s1) =>
    .ok ({ s1 with records := s1.records ++ [(off, CommandRecord.typed m args)] },
         [Event.constructTyped m args])

/-- One producer-side operation: a typed driver call or a custom
closure command. -/
inductive EnqueueOp where
  | typedOp (method : Nat) (args : Args)
  | customOp (closure : Nat)
  deriving DecidableEq, Repr

/-- The record an enqueue operation constructs. -/
def EnqueueOp.record : EnqueueOp → CommandRecord
  | .typedOp m args => CommandRecord.typed m args
  | .customOp c => CommandRecord.custom c

/-- The construction event an enqueue operation emits. -/
def EnqueueOp.constructEvent : EnqueueOp → Event
  | .typedOp m args => Event.constructTyped m args
  | .customOp c => Event.constructCustom c

/-- Dispatch of one enqueue operation on the stream state. -/
def EnqueueOp.apply (s : CommandStream) : EnqueueOp → Except CapacityError (CommandStream × List Event)
  | .typedOp m args => CommandStream.enqueueTyped m args s
  | .customOp c => CommandStream.queueCommand c s

/-- Run a sequence of enqueue operations, accumulating their events. -/
def enqueueAll : List EnqueueOp → CommandStream → Except CapacityError (CommandStream × List Event)
  | [], s => .ok (s, [])
  | op :: ops, s =>
    match op.apply s with
    | .error e => .error e
    | .ok (s1, evs1) =>
      match enqueueAll ops s1 with
      | .error e => .error e
      | .ok (s2, evs2) => .ok (s2, evs1 ++ evs2)

/-- Modelled from the spec: the buffer-swap logic (an external
collaborator) appends a stop marker after the producer's final write, so
the consumer's walk ends at the sentinel. -/
def appendSentinel (s : CommandStream) : List (Nat × CommandRecord) :=
  s.records ++ [(s.writeOffset, CommandRecord.noop)]

/-- Events of draining a list of records in order. -/
def drainEvents (d : Driver) (env : ClosureEnv) : List CommandRecord → List Event
  | [] => []
  | r :: rs => (recordExecute d env r).1 ++ drainEvents d env rs

/-- Total drain cost: the sum of the records' per-call event counts. -/
def drainCost (d : Driver) (env : ClosureEnv) : List CommandRecord → Nat
  | [] => 0
  | r :: rs => (recordExecute d env r).1.length + drainCost d env rs

/-- The driver-visible observation of one event: a driver call or a
closure invocation; construction, destruction and offset bookkeeping are
not observations. -/
inductive Obs where
  | call (method : Nat) (args : Args)
  | run (closure : Nat)
  deriving DecidableEq, Repr

/-- Observation of a single event, when it makes one. -/
def observe : Event → Option Obs
  | .driverCall m args _ => some (Obs.call m args)
  | .closureRun c _ => some (Obs.run c)
  | _ => none

/-- Driver-visible observations of an event trace, in order. -/
def observations (evs : List Event) : List Obs := evs.filterMap observe

/-- The observation an enqueue operation must produce when drained. -/
def EnqueueOp.obs : EnqueueOp → Obs
  | .typedOp m args => Obs.call m args
  | .customOp c => Obs.run c

/-- Number of invocations of a given closure in a trace. -/
def countRuns (c : Nat) : List Event → Nat
  | [] => 0
  | .closureRun c1 _ :: evs => (if c1 = c then 1 else 0) + countRuns c evs
  | _ :: evs => countRuns c evs

/-- Total aligned size of a list of records. -/
def sizeTotal : List CommandRecord → Nat
  | [] => 0
  | r :: rs => align r.rawSize + sizeTotal rs

lemma align_mod_eight (n : Nat) : align n % 8 = 0 := by
  simp [align, Nat.mul_mod_left]

lemma align_ge (n : Nat) (h : 1 ≤ n) : 8 ≤ align n := by
  have h1 : (1 + 7) / 8 ≤ (n + 7) / 8 := Nat.div_le_div_right (by omega)
  have h2 : 1 ≤ (n + 7) / 8 := by simpa using h1
  calc 8 = 1 * 8 := by omega
    _ ≤ ((n + 7) / 8) * 8 := Nat.mul_le_mul_right 8 h2

lemma rawSize_pos (r : CommandRecord) : 1 ≤ r.rawSize := by
  cases r <;> simp [CommandRecord.rawSize, sizeofCustomCommand] <;> omega

lemma align_rawSize_pos (r : CommandRecord) : 0 < align r.rawSize :=
  lt_of_lt_of_le (by norm_num) (align_ge r.rawSize (rawSize_pos r))

lemma fetchRecord_cons_self (recs : List (Nat × CommandRecord)) (off : Nat) (r : CommandRecord) :
    fetchRecord ((off, r) :: recs) off = some r := by
  simp [fetchRecord, List.find?]

lemma fetchRecord_append_right (pre recs : List (Nat × CommandRecord)) (off : Nat)
    (h : ∀ p ∈ pre, p.1 ≠ off) :
    fetchRecord (pre ++ recs) off = fetchRecord recs off := by
  induction pre with
  | nil => rfl
  | cons p pre ih =>
    have hp : (p.1 == off) = false := by
      simpa using h p (by simp)
    have ih2 := ih (fun q hq => h q (by simp [hq]))
    simpa [fetchRecord, List.find?, hp] using ih2

lemma layout_length (o : Nat) (rs : List CommandRecord) : (layout o rs).length = rs.length := by
  induction rs generalizing o with
  | nil => rfl
  | cons r rs ih => simp [layout, ih]

lemma layout_mem_le (rs : List CommandRecord) (o : Nat) (p : Nat × CommandRecord)
    (hp : p ∈ layout o rs) : o ≤ p.1 := by
  induction rs generalizing o with
  | nil => simp [layout] at hp
  | cons r rs ih =>
    simp only [layout, List.mem_cons] at hp
    rcases hp with h | h
    · exact le_of_eq (by rw [h])
    · have h1 := ih (o + align r.rawSize) h
      omega

lemma layout_offsets_pairwise (rs : List CommandRecord) (o : Nat) :
    ((layout o rs).map Prod.fst).Pairwise (· < ·) := by
  induction rs generalizing o with
  | nil => simp [layout]
  | cons r rs ih =>
    simp only [layout, List.map_cons, List.pairwise_cons]
    refine ⟨?_, ih (o + align r.rawSize)⟩
    intro x hx
    obtain ⟨p, hp, rfl⟩ := List.mem_map.mp hx
    have h1 := layout_mem_le rs (o + align r.rawSize) p hp
    have h2 := align_rawSize_pos r
    omega

lemma layout_offsets_aligned (rs : List CommandRecord) (o : Nat) (ho : o % 8 = 0)
    (p : Nat × CommandRecord) (hp : p ∈ layout o rs) : p.1 % 8 = 0 := by
  induction rs generalizing o with
  | nil => simp [layout] at hp
  | cons r rs ih =>
    simp only [layout, List.mem_cons] at hp
    rcases hp with h | h
    · rw [h]
      exact ho
    · exact ih (o + align r.rawSize) (by simp [Nat.add_mod, ho, align_mod_eight]) h

lemma recordExecute_rel (d : Driver) (env : ClosureEnv) (r : CommandRecord)
    (h : r ≠ CommandRecord.noop) : (recordExecute d env r).2 = align r.rawSize := by
  cases r with
  | typed m args => rfl
  | custom c => rfl
  | noop => exact absurd rfl h

lemma walk_layout (d : Driver) (env : ClosureEnv) (rs : List CommandRecord)
    (pre : List (Nat × CommandRecord)) (o fuel : Nat)
    (hne : ∀ r ∈ rs, r ≠ CommandRecord.noop)
    (hpre : ∀ p ∈ pre, p.1 < o)
    (hfuel : rs.length + 1 ≤ fuel) :
    walk d env (pre ++ layout o (rs ++ [CommandRecord.noop])) fuel (some o)
      = some (drainEvents d env rs, (layout o (rs ++ [CommandRecord.noop])).map Prod.fst) := by
  induction rs generalizing pre o fuel with
  | nil =>
    obtain ⟨f, rfl⟩ : ∃ f, fuel = f + 1 := ⟨fuel - 1, by omega⟩
    have hfetch : fetchRecord (pre ++ [(o, CommandRecord.noop)]) o
        = some CommandRecord.noop := by
      rw [fetchRecord_append_right pre _ o (fun p hp => Nat.ne_of_lt (hpre p hp))]
      exact fetchRecord_cons_self _ o _
    show walk d env (pre ++ [(o, CommandRecord.noop)]) (f + 1) (some o) = some ([], [o])
    simp [walk, hfetch, CommandBase.execute, recordExecute, NoopCommand.execute]
  | cons r rs ih =>
    obtain ⟨f, rfl⟩ : ∃ f, fuel = f + 1 := ⟨fuel - 1, by omega⟩
    have hrne : r ≠ CommandRecord.noop := hne r (by simp)
    have hpos : 0 < align r.rawSize := align_rawSize_pos r
    have hcons : (r :: rs) ++ [CommandRecord.noop] = r :: (rs ++ [CommandRecord.noop]) := rfl
    have hlay : layout o ((r :: rs) ++ [CommandRecord.noop])
        = (o, r) :: layout (o + align r.rawSize) (rs ++ [CommandRecord.noop]) := by
      rw [hcons, layout]
    have hfetch : fetchRecord (pre ++ layout o ((r :: rs) ++ [CommandRecord.noop])) o
        = some r := by
      rw [hlay, fetchRecord_append_right pre _ o (fun p hp => Nat.ne_of_lt (hpre p hp))]
      exact fetchRecord_cons_self _ o r
    have hassoc : pre ++ layout o ((r :: rs) ++ [CommandRecord.noop])
        = (pre ++ [(o, r)]) ++ layout (o + align r.rawSize) (rs ++ [CommandRecord.noop]) := by
      rw [hlay, List.append_assoc]
      rfl
    have hpre2 : ∀ p ∈ pre ++ [(o, r)], p.1 < o + align r.rawSize := by
      intro p hp
      rcases List.mem_append.mp hp with h | h
      · have h1 := hpre p h
        omega
      · simp at h
        rw [h]
        omega
    have ihres := ih (pre ++ [(o, r)]) (o + align r.rawSize) f
      (fun q hq => hne q (List.mem_cons_of_mem r hq)) hpre2
      (by simp only [List.length_cons] at hfuel; omega)
    rw [← hassoc] at ihres
    have hrel := recordExecute_rel d env r hrne
    rw [hlay] at hfetch ihres
    simp only [walk, CommandBase.execute, hlay, hfetch, hrel,
      if_neg (Nat.pos_iff_ne_zero.mp hpos), ihres, drainEvents, List.map_cons]

lemma apply_ok (op : EnqueueOp) (s s1 : CommandStream) (evs1 : List Event)
    (h : op.apply s = .ok (s1, evs1)) :
    s1.capacity = s.capacity ∧
    s1.writeOffset = s.writeOffset + align op.record.rawSize ∧
    s1.records = s.records ++ [(s.writeOffset, op.record)] ∧
    evs1 = [op.constructEvent] := by
  cases op with
  | typedOp m args =>
    by_cases hc : s.writeOffset + align (CommandRecord.typed m args).rawSize ≤ s.capacity
    · simp only [EnqueueOp.apply, CommandStream.enqueueTyped, allocateCommand, if_pos hc,
        Except.ok.injEq, Prod.mk.injEq] at h
      obtain ⟨h1, h2⟩ := h
      simp [← h1, ← h2, EnqueueOp.record, EnqueueOp.constructEvent]
    · simp [EnqueueOp.apply, CommandStream.enqueueTyped, allocateCommand, if_neg hc] at h
  | customOp c =>
    by_cases hc : s.writeOffset + align sizeofCustomCommand ≤ s.capacity
    · simp only [EnqueueOp.apply, CommandStream.queueCommand, allocateCommand, if_pos hc,
        Except.ok.injEq, Prod.mk.injEq] at h
      obtain ⟨h1, h2⟩ := h
      simp [← h1, ← h2, EnqueueOp.record, EnqueueOp.constructEvent, CommandRecord.rawSize]
    · simp [EnqueueOp.apply, CommandStream.queueCommand, allocateCommand, if_neg hc] at h

lemma enqueueAll_ok (ops : List EnqueueOp) :
    ∀ s s2 evs, enqueueAll ops s = .ok (s2, evs) →
      s2.capacity = s.capacity ∧
      s2.writeOffset = s.writeOffset + sizeTotal (ops.map EnqueueOp.record) ∧
      s2.records = s.records ++ layout s.writeOffset (ops.map EnqueueOp.record) ∧
      evs = ops.map EnqueueOp.constructEvent := by
  induction ops with
  | nil =>
    intro s s2 evs h
    simp only [enqueueAll, Except.ok.injEq, Prod.mk.injEq] at h
    obtain ⟨h1, h2⟩ := h
    simp [← h1, ← h2, sizeTotal, layout]
  | cons op ops ih =>
    intro s s2 evs h
    cases happ : op.apply s with
    | error e => simp [enqueueAll, happ] at h
    | ok v =>
      obtain ⟨s1, evs1⟩ := v
      cases hrest : enqueueAll ops s1 with
      | error e => simp [enqueueAll, happ, hrest] at h
      | ok w =>
        obtain ⟨s3, evs2⟩ := w
        simp only [enqueueAll, happ, hrest, Except.ok.injEq, Prod.mk.injEq] at h
        obtain ⟨h1, h2⟩ := h
        obtain ⟨ha1, ha2, ha3, ha4⟩ := apply_ok op s s1 evs1 happ
        obtain ⟨hb1, hb2, hb3, hb4⟩ := ih s1 s3 evs2 hrest
        subst h1 h2
        refine ⟨by rw [hb1, ha1], ?_, ?_, by rw [hb4, ha4]; rfl⟩
        · rw [hb2, ha2]
          simp only [List.map_cons, sizeTotal]
          omega
        · rw [hb3, ha3, ha2]
          simp only [List.map_cons, layout, List.append_assoc]
          rfl

lemma observations_append (a b : List Event) :
    observations (a ++ b) = observations a ++ observations b := by
  simp [observations, List.filterMap_append]

lemma observations_drain (d : Driver) (env : ClosureEnv) (ops : List EnqueueOp) :
    observations (drainEvents d env (ops.map EnqueueOp.record)) = ops.map EnqueueOp.obs := by
  induction ops with
  | nil => rfl
  | cons op ops ih =>
    have ih2 : List.filterMap observe (drainEvents d env (ops.map EnqueueOp.record))
        = ops.map EnqueueOp.obs := ih
    cases op <;>
      simp [drainEvents, observations_append, recordExecute, Command.execute,
        CustomCommand.execute, observations, observe, EnqueueOp.record, EnqueueOp.obs, ih2]

lemma countRuns_append (c : Nat) (a b : List Event) :
    countRuns c (a ++ b) = countRuns c a + countRuns c b := by
  induction a with
  | nil => simp [countRuns]
  | cons e a ih => cases e <;> simp [countRuns, ih, Nat.add_assoc]

lemma countRuns_construct (c : Nat) (ops : List EnqueueOp) :
    countRuns c (ops.map EnqueueOp.constructEvent) = 0 := by
  induction ops with
  | nil => rfl
  | cons op ops ih => cases op <;> simp [EnqueueOp.constructEvent, countRuns, ih]

lemma countRuns_drain (d : Driver) (env : ClosureEnv) (c : Nat) (ops : List EnqueueOp) :
    countRuns c (drainEvents d env (ops.map EnqueueOp.record))
      = ops.count (EnqueueOp.customOp c) := by
  induction ops with
  | nil => rfl
  | cons op ops ih =>
    cases op with
    | typedOp m args =>
      simp [drainEvents, countRuns_append, recordExecute, Command.execute, countRuns, ih,
        EnqueueOp.record, List.count_cons]
    | customOp c1 =>
      by_cases hc : c1 = c <;>
        simp [drainEvents, countRuns_append, recordExecute, CustomCommand.execute, countRuns, ih,
          EnqueueOp.record, List.count_cons, hc] <;>
        omega

lemma drainEvents_length (d : Driver) (env : ClosureEnv) (rs : List CommandRecord) :
    (drainEvents d env rs).length = drainCost d env rs := by
  induction rs with
  | nil => rfl
  | cons r rs ih => simp [drainEvents, drainCost, ih]

lemma layout_append (rs1 rs2 : List CommandRecord) (o : Nat) :
    layout o (rs1 ++ rs2) = layout o rs1 ++ layout (o + sizeTotal rs1) rs2 := by
  induction rs1 generalizing o with
  | nil => simp [layout, sizeTotal]
  | cons r rs ih => simp [layout, sizeTotal, ih, Nat.add_assoc]

lemma appendSentinel_layout (cap : Nat) (ops : List EnqueueOp) (s2 : CommandStream)
    (evs : List Event) (h : enqueueAll ops (CommandStream.fresh cap) = .ok (s2, evs)) :
    appendSentinel s2 = layout 0 (ops.map EnqueueOp.record ++ [CommandRecord.noop]) := by
  obtain ⟨h1, h2, h3, h4⟩ := enqueueAll_ok ops _ s2 evs h
  simp only [CommandStream.fresh] at h2 h3
  rw [appendSentinel, h3, h2, layout_append]
  simp [layout]

lemma record_ne_noop (ops : List EnqueueOp) :
    ∀ r ∈ ops.map EnqueueOp.record, r ≠ CommandRecord.noop := by
  intro r hr
  obtain ⟨op, hop, rfl⟩ := List.mem_map.mp hr
  cases op <;> simp [EnqueueOp.record]

lemma execute_enqueued (cap : Nat) (ops : List EnqueueOp) (d : Driver) (env : ClosureEnv)
    (s2 : CommandStream) (evs : List Event)
    (h : enqueueAll ops (CommandStream.fresh cap) = .ok (s2, evs)) :
    walk d env (appendSentinel s2) ((appendSentinel s2).length + 1) (some 0)
      = some (drainEvents d env (ops.map EnqueueOp.record),
              (layout 0 (ops.map EnqueueOp.record ++ [CommandRecord.noop])).map Prod.fst) := by
  rw [appendSentinel_layout cap ops s2 evs h]
  have hw := walk_layout d env (ops.map EnqueueOp.record) [] 0
    ((layout 0 (ops.map EnqueueOp.record ++ [CommandRecord.noop])).length + 1)
    (record_ne_noop ops) (by simp)
    (by rw [layout_length]; simp)
  rw [List.nil_append] at hw
  exact hw

/-- C1: for any finite sequence of enqueued commands (mixed typed and custom) in one
arena generation, one call to CommandStream::execute on the start of the buffer
invokes the records in exact FIFO order, each exactly once, and stops at the
sentinel: the drain returns normally (the walk reaches the stop marker), and its
driver-visible observations are exactly the enqueued operations in order. -/
theorem fifo_order_exactly_once (cap : Nat) (ops : List EnqueueOp) (d : Driver)
    (env : ClosureEnv) (s2 : CommandStream) (evs : List Event)
    (h : enqueueAll ops (CommandStream.fresh cap) = .ok (s2, evs)) :
    CommandStream.execute d env (appendSentinel s2) (some 0)
      = some (drainEvents d env (ops.map EnqueueOp.record))
    ∧ observations (drainEvents d env (ops.map EnqueueOp.record)) = ops.map EnqueueOp.obs := by
  refine ⟨?_, observations_drain d env ops⟩
  unfold CommandStream.execute
  rw [execute_enqueued cap ops d env s2 evs h]
  rfl

/-- C1 witness: a concrete typed-plus-custom sequence drains to exactly its two
observations, in order. -/
theorem fifo_order_exactly_once_witness :
    observations (drainEvents (fun _ _ => none) (fun _ => none)
        ([EnqueueOp.typedOp 1 [2, 3], EnqueueOp.customOp 7].map EnqueueOp.record))
      = [Obs.call 1 [2, 3], Obs.run 7] := by
  have h := fifo_order_exactly_once 200 [EnqueueOp.typedOp 1 [2, 3], EnqueueOp.customOp 7]
    (fun _ _ => none) (fun _ => none)
    ⟨200, 72, [(0, CommandRecord.typed 1 [2, 3]), (32, CommandRecord.custom 7)]⟩
    [Event.constructTyped 1 [2, 3], Event.constructCustom 7] (by rfl)
  simpa [EnqueueOp.obs] using h.2

/-- C2: enqueuing a typed driver operation and then draining results in exactly one
invocation of the bound driver method with the argument values snapshotted at
enqueue time, followed by destruction of the stored arguments, and the walk
advances to the offset immediately following the record, namely the record's
aligned size past its own offset. -/
theorem typed_roundtrip (cap m : Nat) (args : Args) (d : Driver) (env : ClosureEnv)
    (s2 : CommandStream) (evs : List Event)
    (h : CommandStream.enqueueTyped m args (CommandStream.fresh cap) = .ok (s2, evs)) :
    walk d env (appendSentinel s2) ((appendSentinel s2).length + 1) (some 0)
      = some ([Event.driverCall m args (d m args), Event.destructTyped m],
              [0, align (CommandRecord.typed m args).rawSize]) := by
  have h2 : enqueueAll [EnqueueOp.typedOp m args] (CommandStream.fresh cap) = .ok (s2, evs) := by
    simp [enqueueAll, EnqueueOp.apply, h]
  rw [execute_enqueued cap [EnqueueOp.typedOp m args] d env s2 evs h2]
  simp [drainEvents, recordExecute, Command.execute, layout, EnqueueOp.record]

/-- C2 witness: a concrete typed command round-trips with structurally equal
arguments and the aligned next offset 40. -/
theorem typed_roundtrip_witness :
    walk (fun _ _ => some 0) (fun _ => none)
        (appendSentinel ⟨100, 40, [(0, CommandRecord.typed 3 [1, 2, 3])]⟩)
        ((appendSentinel (⟨100, 40, [(0, CommandRecord.typed 3 [1, 2, 3])]⟩ :
            CommandStream)).length + 1)
        (some 0)
      = some ([Event.driverCall 3 [1, 2, 3] (some 0), Event.destructTyped 3], [0, 40]) := by
  have h := typed_roundtrip 100 3 [1, 2, 3] (fun _ _ => some 0) (fun _ => none)
    ⟨100, 40, [(0, CommandRecord.typed 3 [1, 2, 3])]⟩ [Event.constructTyped 3 [1, 2, 3]]
    (by rfl)
  simpa [align, CommandRecord.rawSize] using h

/-- C3: a closure passed to CommandStream::queueCommand is not invoked at enqueue
time (the enqueue emits only the construction event), is invoked exactly once
during the drain when its CustomCommand record is reached (once per enqueued
occurrence), and the record and stored closure are destructed immediately after
that single invocation. -/
theorem custom_deferred_exactly_once (c cap : Nat) (s s1 : CommandStream)
    (evs1 : List Event) (d : Driver) (env : ClosureEnv) (ops : List EnqueueOp)
    (s2 : CommandStream) (evs : List Event)
    (hq : CommandStream.queueCommand c s = .ok (s1, evs1))
    (h : enqueueAll ops (CommandStream.fresh cap) = .ok (s2, evs)) :
    evs1 = [Event.constructCustom c]
    ∧ CustomCommand.execute d env c
        = ([Event.writeNext (align sizeofCustomCommand), Event.closureRun c (env c),
            Event.destructCustom c], align sizeofCustomCommand)
    ∧ countRuns c evs = 0
    ∧ countRuns c (drainEvents d env (ops.map EnqueueOp.record))
        = ops.count (EnqueueOp.customOp c) := by
  refine ⟨?_, rfl, ?_, countRuns_drain d env c ops⟩
  · simpa using (apply_ok (.customOp c) s s1 evs1 hq).2.2.2
  · obtain ⟨-, -, -, h4⟩ := enqueueAll_ok ops _ s2 evs h
    rw [h4]
    exact countRuns_construct c ops

/-- C3 witness: a concrete enqueued closure runs exactly once during the drain. -/
theorem custom_deferred_exactly_once_witness :
    countRuns 5 (drainEvents (fun _ _ => none) (fun _ => some 1)
        ([EnqueueOp.customOp 5].map EnqueueOp.record)) = 1 := by
  have h := custom_deferred_exactly_once 5 100 (CommandStream.fresh 100)
    ⟨100, 40, [(0, CommandRecord.custom 5)]⟩ [Event.constructCustom 5]
    (fun _ _ => none) (fun _ => some 1) [EnqueueOp.customOp 5]
    ⟨100, 40, [(0, CommandRecord.custom 5)]⟩ [Event.constructCustom 5]
    (by rfl) (by rfl)
  simpa using h.2.2.2

/-- C4: every record's next-record offset is determined solely by the record's own
fixed size, never by the outcome of the invoked driver call or closure: the
relative advance is identical for any two drivers and any two closure
behaviours, and equals the record's aligned size; moreover CustomCommand::execute
writes the next offset before invoking the stored closure (its event list puts
the write first). -/
theorem advance_call_independent (d d2 : Driver) (env env2 : ClosureEnv) (c m : Nat)
    (args : Args) (r : CommandRecord) :
    CustomCommand.execute d env c
      = ([Event.writeNext (align sizeofCustomCommand), Event.closureRun c (env c),
          Event.destructCustom c], align sizeofCustomCommand)
    ∧ (recordExecute d env r).2 = (recordExecute d2 env2 r).2
    ∧ (CustomCommand.execute d env c).2 = align (CommandRecord.custom c).rawSize
    ∧ (Command.execute d m args).2 = align (CommandRecord.typed m args).rawSize := by
  refine ⟨rfl, ?_, rfl, rfl⟩
  cases r <;> rfl

/-- C5: when the arena cannot fit the next requested record, allocation fails
immediately with the capacity error rather than returning a pointer into invalid
space: queueCommand surfaces the error, every successful allocation stays within
capacity at the current write cursor, and an oversized request always errors. -/
theorem capacity_error_surfaced (s : CommandStream) (c size : Nat)
    (h : s.capacity < s.writeOffset + align sizeofCustomCommand) :
    CommandStream.queueCommand c s
      = .error (.overflow (align sizeofCustomCommand) s.capacity s.writeOffset)
    ∧ (∀ t off t2, allocateCommand size t = .ok (off, t2) →
        off = t.writeOffset ∧ off + size ≤ t.capacity)
    ∧ (s.capacity < s.writeOffset + size →
        allocateCommand size s = .error (.overflow size s.capacity s.writeOffset)) := by
  refine ⟨?_, ?_, ?_⟩
  · simp [CommandStream.queueCommand, allocateCommand, if_neg (by omega : ¬ (s.writeOffset
      + align sizeofCustomCommand ≤ s.capacity))]
  · intro t off t2 hok
    by_cases hc : t.writeOffset + size ≤ t.capacity
    · simp only [allocateCommand, if_pos hc, Except.ok.injEq, Prod.mk.injEq] at hok
      obtain ⟨h1, -⟩ := hok
      omega
    · simp [allocateCommand, if_neg hc] at hok
  · intro h2
    simp [allocateCommand, if_neg (by omega : ¬ (s.writeOffset + size ≤ s.capacity))]

/-- C5 witness: a 40-byte custom record cannot fit a 10-byte arena and the
enqueue surfaces the capacity error. -/
theorem capacity_error_surfaced_witness :
    CommandStream.queueCommand 0 ⟨10, 0, []⟩
      = .error (.overflow (align sizeofCustomCommand) 10 0) :=
  (capacity_error_surfaced ⟨10, 0, []⟩ 0 11 (by decide)).1

/-- C6: every record size produced by the type-erasure mechanism is rounded up to
8-byte alignment, each offset the walk visits is 8-byte aligned, the walk from
the first record visits every record exactly once (the visited offsets are the
strictly increasing layout offsets) and ends at the sentinel, and the
CustomCommand advance is align(sizeof(CustomCommand)). -/
theorem alignment_advance (cap : Nat) (ops : List EnqueueOp) (d : Driver)
    (env : ClosureEnv) (s2 : CommandStream) (evs : List Event) (r : CommandRecord) (c : Nat)
    (h : enqueueAll ops (CommandStream.fresh cap) = .ok (s2, evs)) :
    (walk d env (appendSentinel s2) ((appendSentinel s2).length + 1) (some 0)).map Prod.snd
      = some ((layout 0 (ops.map EnqueueOp.record ++ [CommandRecord.noop])).map Prod.fst)
    ∧ (((layout 0 (ops.map EnqueueOp.record ++ [CommandRecord.noop])).map Prod.fst).all
        fun o => o % 8 == 0) = true
    ∧ ((layout 0 (ops.map EnqueueOp.record ++ [CommandRecord.noop])).map
        Prod.fst).Pairwise (· < ·)
    ∧ align r.rawSize % 8 = 0
    ∧ (CustomCommand.execute d env c).2 = align sizeofCustomCommand := by
  refine ⟨?_, ?_, layout_offsets_pairwise _ 0, align_mod_eight _, rfl⟩
  · rw [execute_enqueued cap ops d env s2 evs h]
    rfl
  · rw [List.all_eq_true]
    intro o ho
    obtain ⟨p, hp, rfl⟩ := List.mem_map.mp ho
    simpa using layout_offsets_aligned _ 0 (by norm_num) p hp

/-- C6 witness: the visited offsets of a concrete one-command buffer are all
8-byte aligned. -/
theorem alignment_advance_witness :
    (((layout 0 ([EnqueueOp.customOp 4].map EnqueueOp.record ++ [CommandRecord.noop])).map
        Prod.fst).all fun o => o % 8 == 0) = true := by
  have h := alignment_advance 100 [EnqueueOp.customOp 4] (fun _ _ => none) (fun _ => none)
    ⟨100, 40, [(0, CommandRecord.custom 4)]⟩ [Event.constructCustom 4] CommandRecord.noop 0
    (by rfl)
  exact h.2.1

/-- C7: for every buffer holding a finite chain of records terminated by the stop
marker, CommandStream::execute terminates: the linear walk runs to completion
(it returns rather than exhausting its fuel, which bounds the work by the record
count), with total event count equal to the sum of the records' call costs. -/
theorem execute_terminates (d : Driver) (env : ClosureEnv) (rs : List CommandRecord)
    (hne : ∀ r ∈ rs, r ≠ CommandRecord.noop) :
    CommandStream.execute d env (layout 0 (rs ++ [CommandRecord.noop])) (some 0)
      = some (drainEvents d env rs)
    ∧ (drainEvents d env rs).length = drainCost d env rs := by
  refine ⟨?_, drainEvents_length d env rs⟩
  unfold CommandStream.execute
  have hw := walk_layout d env rs [] 0 ((layout 0 (rs ++ [CommandRecord.noop])).length + 1) hne
    (by simp) (by rw [layout_length]; simp)
  rw [List.nil_append] at hw
  rw [hw]
  rfl

/-- C7 witness: a concrete two-record chain drains to completion. -/
theorem execute_terminates_witness :
    CommandStream.execute (fun _ _ => none) (fun _ => none)
        (layout 0 ([CommandRecord.typed 1 [5], CommandRecord.custom 2] ++ [CommandRecord.noop]))
        (some 0)
      = some (drainEvents (fun _ _ => none) (fun _ => none)
          [CommandRecord.typed 1 [5], CommandRecord.custom 2]) :=
  (execute_terminates (fun _ _ => none) (fun _ => none)
    [CommandRecord.typed 1 [5], CommandRecord.custom 2] (by decide)).1

/-- C8: the profiler and systrace instrumentation around CommandStream::execute is
observational only: the sequence of record executions and driver calls performed
by the drain is identical whether the systrace tag is enabled or compiled out. -/
theorem instrumentation_observational_only (tag : Bool) (d : Driver) (env : ClosureEnv)
    (recs : List (Nat × CommandRecord)) (buffer : Option Nat) :
    (CommandStream.executeTraced tag d env recs buffer).1
      = (CommandStream.executeTraced false d env recs buffer).1
    ∧ (CommandStream.executeTraced tag d env recs buffer).1
      = CommandStream.execute d env recs buffer :=
  ⟨rfl, rfl⟩

/-- C9: calling CommandStream::execute with a null buffer start performs zero
record executions and zero driver calls and returns immediately: the drain of an
empty frame slice is a no-op, visiting no offsets, with or without
instrumentation. -/
theorem execute_null_buffer (tag : Bool) (d : Driver) (env : ClosureEnv)
    (recs : List (Nat × CommandRecord)) (fuel : Nat) :
    CommandStream.execute d env recs none = some []
    ∧ (CommandStream.executeTraced tag d env recs none).1 = some []
    ∧ walk d env recs fuel none = some ([], []) := by
  refine ⟨rfl, rfl, ?_⟩
  cases fuel <;> rfl

/-- C10: CustomCommand::execute is independent of the driver: for any two driver
instances and any stored closure it performs the identical effect, invokes no
driver operation, and returns the same fixed next offset
align(sizeof(CustomCommand)). -/
theorem custom_driver_independent (d d2 : Driver) (env : ClosureEnv) (c : Nat) :
    CustomCommand.execute d env c = CustomCommand.execute d2 env c
    ∧ ((CustomCommand.execute d env c).1.all fun e => ! e.isDriverCall) = true
    ∧ (CustomCommand.execute d env c).2 = align sizeofCustomCommand := by
  refine ⟨rfl, ?_, rfl⟩
  simp [CustomCommand.execute, Event.isDriverCall]

end FilamentBackend
